import Mathlib

/-!
Verification of the OrthoBatch Blender addon (src/__init__.py) against its
natural-language specification.

Embedding conventions:
* Python strings are modelled as lists of characters (`PStr`);
* Python int / float arithmetic is modelled as exact `Nat` / `ℚ` arithmetic;
* the POSIX path convention is fixed (`os.sep = '/'`);
* fallible Python operations (division, which raises `ZeroDivisionError` on a
  zero divisor) return `Option`;
* external collaborators (the filesystem walk, the importer, the renderer) are
  supplied as explicit data or functions, and the scene state mutated by the
  orchestrator is threaded explicitly.
-/

namespace OrthoBatch

/-- Python strings, modelled as lists of characters. -/
abbrev PStr := List Char

/-- The POSIX path separator, the value of `os.sep`. -/
def sep : Char := '/'

/-- Python `s.strip('\\')`: removes leading and trailing backslashes. -/
def stripBackslash (s : PStr) : PStr :=
  ((s.dropWhile (fun c => c = '\\')).reverse.dropWhile (fun c => c = '\\')).reverse

/-- Python `s.split(c)` for a one-character separator: splits at every
occurrence, keeping empty pieces; the result is always nonempty. -/
def pySplit (c : Char) : PStr → List PStr
  | [] => [[]]
  | ch :: t =>
    match pySplit c t with
    | [] => [[]]
    | p :: ps => if ch = c then [] :: p :: ps else (ch :: p) :: ps

/-- Python `s.lower()` (ASCII case folding). -/
def pyLower (s : PStr) : PStr := s.map Char.toLower

/-- Python string comparison `a < b`: lexicographic on character codes. -/
def pyStrLtB : PStr → PStr → Bool
  | [], [] => false
  | [], _ :: _ => true
  | _ :: _, [] => false
  | a :: as, b :: bs => if a = b then pyStrLtB as bs else decide (a < b)

/-- Index of the first occurrence of `needle` in a string, if any
(helper for Python `str.find`). -/
def findIdxOfSub (needle : PStr) : PStr → Option Nat
  | [] => if needle = [] then some 0 else none
  | h :: t =>
    if needle.isPrefixOf (h :: t) then some 0
    else (findIdxOfSub needle t).map (fun i => i + 1)

/-- Python `hay.find(needle)`: index of the first occurrence, or -1. -/
def pyFind (hay needle : PStr) : Int :=
  match findIdxOfSub needle hay with
  | some n => (n : Int)
  | none => -1

/-- Python `s.rfind(c)` for a single character: index of the last occurrence,
or -1. -/
def pyRFindChar (s : PStr) (c : Char) : Int :=
  match s.reverse.findIdx? (fun ch => ch = c) with
  | some i => ((s.length - 1 - i : Nat) : Int)
  | none => -1

/-- Resolve a Python slice index to an offset in `[0, n]`: negative indices
count from the end, positive ones are clamped to the length. -/
def pySliceIdx (n : Nat) (i : Int) : Nat :=
  if i < 0 then n - (-i).toNat else min i.toNat n

/-- Python slice `s[a:b]`. -/
def pySlice (s : PStr) (a b : Int) : PStr :=
  (s.take (pySliceIdx s.length b)).drop (pySliceIdx s.length a)

/-- Model of `posixpath.join` for two components: an absolute second component replaces
the first; otherwise a separator is inserted unless one is already present. -/
def osJoin (a b : PStr) : PStr :=
  if b.head? = some sep then b
  else if a = [] then b
  else if a.getLast? = some sep then a ++ b
  else a ++ sep :: b

/-- Python `s.endswith(tuple)`: some member of the tuple is a suffix of `s`.
This comparison is case-sensitive, exactly as in Python. -/
def pyEndsWithTuple (s : PStr) (exts : List PStr) : Bool :=
  exts.any (fun e => e.isSuffixOf s)

/-- The `ModelPath` class: parsed identity of one discovered model file
(src/__init__.py lines 253-266). -/
structure ModelPath where
  filename : PStr
  name : PStr
  extension : PStr
  filepath : PStr
  subpath : PStr
  sourcepathused : PStr
  pathminusfilename : PStr
deriving DecidableEq

/-- Constructor `ModelPath.__init__` (lines 255-266): the subpath is the slice of the full
path between the (backslash-stripped) source path and the first occurrence of
the filename, itself backslash-stripped. -/
def mkModelPath (filename filepath sourcepathused : PStr) : ModelPath :=
  let name := pySlice filename 0 (pyRFindChar filename '.')
  let extension := pySlice filename (pyRFindChar filename '.' + 1) (filename.length : Int)
  let spu := stripBackslash sourcepathused
  let subpath := stripBackslash (pySlice filepath (spu.length : Int) (pyFind filepath filename))
  { filename := filename
    name := name
    extension := extension
    filepath := filepath
    subpath := subpath
    sourcepathused := spu
    pathminusfilename := osJoin spu subpath }

/-- Equality `ModelPath.__eq__` (lines 272-273): case-insensitive filepath comparison. -/
def modelEq (a b : ModelPath) : Bool :=
  decide (pyLower a.filepath = pyLower b.filepath)

/-- The folder count used by `ModelPath.__lt__`:
`len(self.pathminusfilename.split(os.sep))`. -/
def foldercount (m : ModelPath) : Nat := (pySplit sep m.pathminusfilename).length

/-- Comparison `ModelPath.__lt__` (lines 276-281): order by folder count of
`pathminusfilename`, ties broken by case-insensitive filename. -/
def modelLt (a b : ModelPath) : Bool :=
  if foldercount a = foldercount b then pyStrLtB (pyLower a.filename) (pyLower b.filename)
  else decide (foldercount a < foldercount b)

/-- The `orthobatch_exportPathMode` enum values (lines 183-193). -/
inductive ExportPathMode
  | keeppath
  | flatten
  | flatten_pathname
  | flatten_foldername
deriving DecidableEq

/-- The `orthobatch_exportNameMode` enum values (lines 194-202). -/
inductive ExportNameMode
  | prepend
  | append
deriving DecidableEq

/-- Method `ModelPath.suffixName` (lines 298-303). -/
def suffixName (suffix name : PStr) : ExportNameMode → PStr
  | .prepend => suffix ++ '_' :: name
  | .append => name ++ '_' :: suffix

/-- Method `ModelPath.imageExportPath` (lines 283-296): the destination path of one
exported image, before the renderer appends the image-format extension. -/
def imageExportPath (m : ModelPath) (direction exportpath : PStr)
    (exportpathmode : ExportPathMode) (exportNameMode : ExportNameMode) : PStr :=
  let subpathtrimmed := if m.subpath.getLast? = some sep then m.subpath.dropLast else m.subpath
  match exportpathmode with
  | .keeppath =>
      osJoin (osJoin exportpath subpathtrimmed) (suffixName direction m.name exportNameMode)
  | .flatten =>
      osJoin exportpath (suffixName direction m.name exportNameMode)
  | .flatten_pathname =>
      osJoin exportpath (suffixName direction
        ((subpathtrimmed.map (fun c => if c = sep then '_' else c)) ++ '_' :: m.name)
        exportNameMode)
  | .flatten_foldername =>
      osJoin exportpath (suffixName direction ((pySplit sep subpathtrimmed).getLastD [])
        exportNameMode)

/-- Spec function `suffixed(name)` exactly as the specification words it (section 4.1):
`direction + "_" + name` under Prepend, `name + "_" + direction` under Append. -/
def suffixedSpec (direction name : PStr) : ExportNameMode → PStr
  | .prepend => direction ++ '_' :: name
  | .append => name ++ '_' :: direction

/-- Spec function `destinationPath` exactly as the specification words it (section 4.1), as a
function of the base name and the normalized relative subpath (no trailing
separator). -/
def destinationPathSpec (baseName relSubpath direction exportRoot : PStr)
    (policy : ExportPathMode) (placement : ExportNameMode) : PStr :=
  match policy with
  | .flatten => osJoin exportRoot (suffixedSpec direction baseName placement)
  | .keeppath => osJoin (osJoin exportRoot relSubpath) (suffixedSpec direction baseName placement)
  | .flatten_pathname =>
      osJoin exportRoot (suffixedSpec direction
        ((relSubpath.map (fun c => if c = sep then '_' else c)) ++ '_' :: baseName) placement)
  | .flatten_foldername =>
      osJoin exportRoot (suffixedSpec direction ((pySplit sep relSubpath).getLastD []) placement)

/-- One directory visited by `os.walk`: the subdirectory path and its files. -/
structure WalkEntry where
  subdir : PStr
  files : List PStr
deriving DecidableEq

/-- Function `getAllModelPaths` (lines 351-365), with the result of `os.walk` supplied
as data: a file is kept iff `file.endswith(tuple(extensions))`, and its full
path is `os.path.join(basepath, subdir, file)`. -/
def getAllModelPaths (walk : List WalkEntry) (basepath : PStr) (extensions : List PStr) :
    List ModelPath :=
  walk.flatMap (fun e =>
    (e.files.filter (fun file => pyEndsWithTuple file extensions)).map
      (fun file => mkModelPath file (osJoin (osJoin basepath e.subdir) file) basepath))

/-- The `orthobatch_imgDivideMode` enum values (lines 121-131). -/
inductive DivideMode
  | reduceres
  | evensize
  | maxsize
deriving DecidableEq

/-- The `orthobatch_scaleMode` enum values (lines 78-86). -/
inductive ScaleMode
  | uniformscale
  | samesize
deriving DecidableEq

/-- The render border registers: a normalized crop window. -/
structure Border where
  xmin : ℚ
  xmax : ℚ
  ymin : ℚ
  ymax : ℚ
deriving DecidableEq

/-- One render invocation: output filepath and the crop state at call time. -/
structure RenderOut where
  filepath : String
  useBorder : Bool
  useCrop : Bool
  border : Border
deriving DecidableEq

/-- Tile count `math.ceil(resolution / max_res)` (`render`, lines 409-410); Python float
division is modelled as exact rational division. -/
def piecesCount (res maxRes : Nat) : Nat := Nat.ceil ((res : ℚ) / (maxRes : ℚ))

/-- The border registers set for tile `(row, column)` in the multi-tile branch
of `render` (lines 427-439). In `reduceres` mode the match has no arm, so the
registers keep their incoming value `b0`. -/
def tileBorder (w h maxRes : Nat) (mode : DivideMode) (b0 : Border)
    (row column : Nat) : Border :=
  match mode with
  | .evensize =>
      { xmin := (1 / (piecesCount w maxRes : ℚ)) * row
        xmax := (1 / (piecesCount w maxRes : ℚ)) * (row + 1)
        ymin := (1 / (piecesCount h maxRes : ℚ)) * column
        ymax := (1 / (piecesCount h maxRes : ℚ)) * (column + 1) }
  | .maxsize =>
      { xmin := ((maxRes * row : Nat) : ℚ) / (w : ℚ)
        xmax := ((min (maxRes * (row + 1)) w : Nat) : ℚ) / (w : ℚ)
        ymin := ((maxRes * column : Nat) : ℚ) / (h : ℚ)
        ymax := ((min (maxRes * (column + 1)) h : Nat) : ℚ) / (h : ℚ) }
  | .reduceres => b0

/-- One multi-tile render invocation (lines 424-448): crop enabled, output path
`basepath + "_" + (row+1) + "_" + (column+1)`. -/
def renderTile (basepath : String) (w h maxRes : Nat) (mode : DivideMode) (b0 : Border)
    (row column : Nat) : RenderOut :=
  { filepath := basepath ++ "_" ++ toString (row + 1) ++ "_" ++ toString (column + 1)
    useBorder := true
    useCrop := true
    border := tileBorder w h maxRes mode b0 row column }

/-- The `render` function (lines 406-449): `w`, `h` are the scene's
`resolution_x`, `resolution_y`; `b0` is the incoming state of the border
registers. Returns the sequence of render invocations performed. -/
def render (basepath : String) (w h maxRes : Nat) (mode : DivideMode) (b0 : Border) :
    List RenderOut :=
  let piecesX := piecesCount w maxRes
  let piecesY := piecesCount h maxRes
  if piecesX = 1 ∧ piecesY = 1 then
    [{ filepath := basepath, useBorder := false, useCrop := false, border := b0 }]
  else
    (List.range piecesX).flatMap (fun row =>
      (List.range piecesY).map (fun column =>
        renderTile basepath w h maxRes mode b0 row column))

/-- The normalized crop window actually applied by the renderer: with
`use_border` disabled the full frame `[0,1]x[0,1]` is rendered. -/
def effectiveBorder (r : RenderOut) : Border :=
  if r.useBorder then r.border else { xmin := 0, xmax := 1, ymin := 0, ymax := 1 }

/-- Area of a normalized border box. -/
def area (b : Border) : ℚ := (b.xmax - b.xmin) * (b.ymax - b.ymin)

/-- Membership in the closed box of a border. -/
def inClosed (b : Border) (x y : ℚ) : Prop :=
  b.xmin ≤ x ∧ x ≤ b.xmax ∧ b.ymin ≤ y ∧ y ≤ b.ymax

/-- Membership in the open interior of a border. -/
def inOpen (b : Border) (x y : ℚ) : Prop :=
  b.xmin < x ∧ x < b.xmax ∧ b.ymin < y ∧ y < b.ymax

/-- The full-frame border `[0,1]x[0,1]`. -/
def unitBorder : Border := { xmin := 0, xmax := 1, ymin := 0, ymax := 1 }

/-- Python division: raises `ZeroDivisionError` on a zero divisor, modelled as
`none`. -/
def pyDiv (a b : ℚ) : Option ℚ := if b = 0 then none else some (a / b)

/-- The `px_per_unit` computation of `shoottarget` (lines 524-532): under
`uniformscale` the configured pixels-per-unit, reduced only in `reduceres` mode
and only when the capped dimension is exceeded; under `samesize` always
`max_image_size / max(viewsize)`. -/
def computePxPerUnit (scaleMode : ScaleMode) (divideMode : DivideMode)
    (imgSize maxImageSize : ℚ) (vs : ℚ × ℚ) : Option ℚ :=
  match scaleMode with
  | .uniformscale =>
      if divideMode = .reduceres then
        if max vs.1 vs.2 * imgSize > maxImageSize then
          pyDiv maxImageSize (max vs.1 vs.2)
        else some imgSize
      else some imgSize
  | .samesize => pyDiv maxImageSize (max vs.1 vs.2)

/-- The output resolution of `shoottarget` (lines 534-535):
`math.ceil(px_per_unit * viewsize)` per axis. -/
def computeResolution (scaleMode : ScaleMode) (divideMode : DivideMode)
    (imgSize maxImageSize : ℚ) (vs : ℚ × ℚ) : Option (Int × Int) :=
  (computePxPerUnit scaleMode divideMode imgSize maxImageSize vs).map
    (fun p => (Int.ceil (p * vs.1), Int.ceil (p * vs.2)))

/-- A scene object: its render-visibility flag and its material slots, each
slot either empty (`none`) or a material carrying its `use_backface_culling`
flag. -/
structure SceneObj where
  hideRender : Bool
  materials : List (Option Bool)
deriving DecidableEq

/-- Function `prepare_shoot_clean_object` (lines 552-585) on the state it mutates: back
up each present material's culling flag (empty slots back up as `False`),
override the flags with the configured value, unhide the object, shoot all
directions (which may raise), then re-hide the object and restore the culling
flags. When the shoot raises, the exception propagates to `main`'s handler and
the re-hide and restore steps are skipped. Returns the object's final state
and whether an exception escaped. -/
def prepareShootClean (cfgCulling : Bool) (shootRaises : Bool) (obj : SceneObj) :
    SceneObj × Bool :=
  let oldCulling := obj.materials.map (fun m => m.getD false)
  let obj1 : SceneObj :=
    { hideRender := false
      materials := obj.materials.map (fun m => m.map (fun _ => cfgCulling)) }
  if shootRaises then (obj1, true)
  else
    ({ hideRender := true
       materials := List.zipWith (fun m c => m.map (fun _ => c)) obj1.materials oldCulling },
     false)

/-- The folder-mode per-asset loop of `main` (lines 648-670), bookkeeping view:
`tryImp` supplies each asset's `tryImport` result (which catches its own
exceptions). On import failure (`none`) the asset is recorded in the failure
list with its message and the loop continues with the next asset; on success
it is recorded in the success list and its imported object is shot and
disposed. Rendering is modelled as completing normally (a render-call
exception is handled one level up, outside this claim's scope). Returns
(successes, failures, imported objects processed). -/
def processModelpaths {α : Type} (tryImp : ModelPath → Option α × String) :
    List ModelPath → List (PStr × String) × List (PStr × String) × List α
  | [] => ([], [], [])
  | p :: rest =>
    let out := tryImp p
    match out.1 with
    | none =>
        let r := processModelpaths tryImp rest
        (r.1, (p.filepath, out.2) :: r.2.1, r.2.2)
    | some o =>
        let r := processModelpaths tryImp rest
        ((p.filepath, out.2) :: r.1, r.2.1, o :: r.2.2)

/-- Per-asset behavior of a run, for the scene-state model: the result of
`tryImport` (`none` = recorded import failure) and whether an exception
escapes during this asset's framing/rendering. -/
structure AssetSpec where
  importResult : Option SceneObj
  renderRaises : Bool
deriving DecidableEq

/-- The folder-mode loop of `main` as it affects scene state (lines 648-670):
an import failure continues with the next asset; an exception during shooting
propagates to `main`'s handler, ending the loop and leaving the current
object in the scene (never disposed). Successfully shot objects are
disposed. Returns the imported objects still in the scene when the loop
ends. -/
def processLoopScene (cfgCulling : Bool) : List AssetSpec → List SceneObj
  | [] => []
  | a :: rest =>
    match a.importResult with
    | none => processLoopScene cfgCulling rest
    | some obj =>
      let r := prepareShootClean cfgCulling a.renderRaises obj
      if r.2 then [r.1]
      else processLoopScene cfgCulling rest

/-- Final scene state after a run. -/
structure RunResult where
  oldObjs : List SceneObj
  leftover : List SceneObj
  cameraDisposed : Bool
deriving DecidableEq

/-- Function `main` (lines 587-706) as it affects scene state in folder mode:
snapshot every pre-run object's `hide_render` flag and hide them all (lines
601-606), create the run's camera (line 610), then enter the try block. When
the source directory yields zero matching models, `main` returns from inside
the try (lines 632-634); there is no finally clause, so the `hide_render`
restore loop (lines 701-703) and the camera disposal (line 706) are skipped,
leaving every pre-run object hidden and the camera in the scene. Otherwise
the per-asset loop runs (a render exception is caught by the except clause),
after which the restore loop and the camera disposal execute. The
start-index/max-count slicing (lines 636-645) is modelled separately
(`selectModelpaths`) and taken at its defaults here (start index 0, limit
disabled), under which the processed list equals the discovered list whose
emptiness lines 632-634 test. -/
def mainRun (cfgCulling : Bool) (oldObjs : List SceneObj) (assets : List AssetSpec) :
    RunResult :=
  let snapshot := oldObjs.map (fun o => o.hideRender)
  let hidden := oldObjs.map (fun o => { o with hideRender := true })
  if assets.length < 1 then
    { oldObjs := hidden, leftover := [], cameraDisposed := false }
  else
    let leftover := processLoopScene cfgCulling assets
    { oldObjs := List.zipWith (fun o v => { o with hideRender := v }) hidden snapshot
      leftover := leftover
      cameraDisposed := true }

/-- Truthiness of the expression `bpy.types.WindowManager.orthobatch_overrideStartSearch`
as evaluated by the guard at line 638. It reads the property definition stored
on the `WindowManager` type (the `bpy.props.BoolProperty(...)` object created
at line 165), not the session's toggle value; that object is neither None nor
False nor empty, so Python truth-tests it as True on every run. -/
def overrideStartSearchTypeAttrTruthy : Bool := true

/-- The start-index / max-count slicing of `main` (lines 636-645). The
session's toggle value (`overrideStartSearch`, read from
`bpy.context.window_manager`) is passed in but, exactly as in the source, the
guard tests the type attribute instead; the `limitSearch` guard correctly
reads the session value. -/
def selectModelpaths (modelpaths : List ModelPath) (overrideStartSearch : Bool)
    (startSearch : Nat) (limitSearch : Bool) (maxFiles : Nat) : List ModelPath :=
  let m1 := if overrideStartSearchTypeAttrTruthy
            then modelpaths.drop (min startSearch modelpaths.length)
            else modelpaths
  if limitSearch then m1.take (min maxFiles m1.length) else m1

/-- The path string of a chain of folder components, each followed by a
separator (the shape `os.walk` discovery produces for the subpath). -/
def subdirStr (comps : List PStr) : PStr := (comps.map (fun c => c ++ [sep])).flatten

/-- The full path of a discovered file: source root (with trailing separator),
folder components, filename. -/
def discoveredPath (s : PStr) (comps : List PStr) (f : PStr) : PStr :=
  s ++ subdirStr comps ++ f

/-- An asset-discovery situation on POSIX, well-formed in the sense that the
source-code path slicing recovers the intended relative subpath: the source
root is nonempty, ends with the separator and contains no backslash; every
folder component and the filename are nonempty and contain neither separator
nor backslash; and the first occurrence of the filename inside the full path
is at its final position. -/
structure WellFormedAsset (s : PStr) (comps : List PStr) (f : PStr) : Prop where
  src_ne : s ≠ []
  src_last : s.getLast? = some sep
  src_nobs : '\\' ∉ s
  comps_ok : ∀ c ∈ comps, c ≠ [] ∧ sep ∉ c ∧ '\\' ∉ c
  fname_ne : f ≠ []
  fname_nosep : sep ∉ f
  fname_nobs : '\\' ∉ f
  find_at : findIdxOfSub f (discoveredPath s comps f) =
    some (s.length + (subdirStr comps).length)

/-- The `ModelPath` built for a discovered file, as `getAllModelPaths`
constructs it on POSIX: filename `f`, full path `discoveredPath s comps f`,
source path `s`. -/
def discoveredModel (s : PStr) (comps : List PStr) (f : PStr) : ModelPath :=
  mkModelPath f (discoveredPath s comps f) s

/-- The 1-D boundary function of the EvenSplit tiling with `n` pieces. -/
def evenF (n : Nat) (i : Nat) : ℚ := (1 / (n : ℚ)) * i

/-- The 1-D boundary function of the MaxSizeSplit tiling. -/
def maxF (maxRes res : Nat) (i : Nat) : ℚ := ((min (maxRes * i) res : Nat) : ℚ) / (res : ℚ)

/-- The 1-D tile boundary function of one axis, per divide mode. -/
def xBound (res maxRes : Nat) (mode : DivideMode) (i : Nat) : ℚ :=
  match mode with
  | .evensize => evenF (piecesCount res maxRes) i
  | .maxsize => maxF maxRes res i
  | .reduceres => 0

/-- The tiling-partition property of a list of render invocations (claim C1):
the effective normalized crop boxes cover the unit square, have pairwise
disjoint interiors, and their areas sum to 1. -/
def tilesPartitionUnitSquare (rs : List RenderOut) : Prop :=
  (∀ x y : ℚ, 0 ≤ x → x ≤ 1 → 0 ≤ y → y ≤ 1 →
      ∃ b ∈ rs.map effectiveBorder, inClosed b x y) ∧
  (rs.map effectiveBorder).Pairwise
    (fun b bb => ∀ x y : ℚ, ¬(inOpen b x y ∧ inOpen bb x y)) ∧
  ((rs.map effectiveBorder).map area).sum = 1

/-- Exact coincidence of adjacent tiles' boundary coordinates (claim C1):
horizontally adjacent tiles share their x boundary, vertically adjacent tiles
share their y boundary. -/
def adjacentBoundariesMatch (basepath : String) (w h maxRes : Nat)
    (mode : DivideMode) (b0 : Border) : Prop :=
  (∀ r c, r + 1 < piecesCount w maxRes → c < piecesCount h maxRes →
      (renderTile basepath w h maxRes mode b0 r c).border.xmax
        = (renderTile basepath w h maxRes mode b0 (r + 1) c).border.xmin) ∧
  (∀ r c, r < piecesCount w maxRes → c + 1 < piecesCount h maxRes →
      (renderTile basepath w h maxRes mode b0 r c).border.ymax
        = (renderTile basepath w h maxRes mode b0 r (c + 1)).border.ymin)

/-- The tiling-decomposition reference behavior (claim C2): tile counts are
the ceilings of `w / m` and `h / m` (characterized by their Galois property in
integer arithmetic); a single tile means one full-frame render to `basepath`
with the border disabled; otherwise the renders are exactly the tiles at grid
positions `(row, col)` with `row < tileCountX`, `col < tileCountY`, and each
tile's output path is `basepath + "_" + (row+1) + "_" + (col+1)`. -/
def tilingReference (basepath : String) (w h m : Nat) (mode : DivideMode) (b0 : Border) : Prop :=
  (∀ n : Nat, piecesCount w m ≤ n ↔ w ≤ m * n) ∧
  (∀ n : Nat, piecesCount h m ≤ n ↔ h ≤ m * n) ∧
  (piecesCount w m = 1 → piecesCount h m = 1 →
    render basepath w h m mode b0 =
      [{ filepath := basepath, useBorder := false, useCrop := false, border := b0 }]) ∧
  (¬(piecesCount w m = 1 ∧ piecesCount h m = 1) →
    ∀ ro, ro ∈ render basepath w h m mode b0 ↔
      ∃ row, row < piecesCount w m ∧ ∃ col, col < piecesCount h m ∧
        ro = renderTile basepath w h m mode b0 row col) ∧
  (∀ row col, (renderTile basepath w h m mode b0 row col).filepath
      = basepath ++ "_" ++ toString (row + 1) ++ "_" ++ toString (col + 1))

/-- The resolution-policy reference behavior (claim C3), over a view extent
`vs`, configured pixels-per-unit `imgSize`, and cap `maxImageSize`. -/
def resolutionPolicyCases (imgSize maxImageSize : ℚ) (vs : ℚ × ℚ) (dm : DivideMode) : Prop :=
  (computeResolution .samesize dm imgSize maxImageSize vs =
      some (Int.ceil (maxImageSize / max vs.1 vs.2 * vs.1),
            Int.ceil (maxImageSize / max vs.1 vs.2 * vs.2))) ∧
  (max (Int.ceil (maxImageSize / max vs.1 vs.2 * vs.1))
      (Int.ceil (maxImageSize / max vs.1 vs.2 * vs.2)) = Int.ceil maxImageSize) ∧
  (max vs.1 vs.2 * imgSize ≤ maxImageSize →
      computePxPerUnit .uniformscale .reduceres imgSize maxImageSize vs = some imgSize) ∧
  (maxImageSize < max vs.1 vs.2 * imgSize →
      computePxPerUnit .uniformscale .reduceres imgSize maxImageSize vs =
        some (maxImageSize / max vs.1 vs.2)) ∧
  (dm = .evensize ∨ dm = .maxsize →
      computeResolution .uniformscale dm imgSize maxImageSize vs =
        some (Int.ceil (imgSize * vs.1), Int.ceil (imgSize * vs.2)))

/-- The bookkeeping property of the folder-mode loop (claim C8): every asset
whose import fails is recorded in the failure list with its message, every
asset whose import succeeds is recorded in the success list and its object is
processed, and in the concrete three-asset scenario with asset 2 failing,
assets 1 and 3 are fully processed while asset 2 appears only among the
failures. -/
def importIsolation {α : Type} (tryImp : ModelPath → Option α × String)
    (paths : List ModelPath) : Prop :=
  (∀ p ∈ paths,
    ((tryImp p).1 = none →
        (p.filepath, (tryImp p).2) ∈ (processModelpaths tryImp paths).2.1) ∧
    (∀ o, (tryImp p).1 = some o →
        (p.filepath, (tryImp p).2) ∈ (processModelpaths tryImp paths).1 ∧
          o ∈ (processModelpaths tryImp paths).2.2)) ∧
  (∀ a1 a2 a3 o1 o3 m1 m2 m3,
    tryImp a1 = (some o1, m1) → tryImp a2 = (none, m2) → tryImp a3 = (some o3, m3) →
    processModelpaths tryImp [a1, a2, a3] =
      ([(a1.filepath, m1), (a3.filepath, m3)], [(a2.filepath, m2)], [o1, o3]))

/-- The amended restore property (claim C9): for every run that finds at
least one model - fully successful, partially failed, or interrupted by a
render exception - every pre-run scene object's `hide_render` flag and all of
its materials equal their pre-run values and the run's camera is disposed;
when no asset's shoot raises, no imported object is left in the scene; and an
asset whose shoot completes has its materials (including their culling flags)
restored exactly. The zero-models early return and the mid-shoot exception
are exactly the two paths on which the original claim fails (see the
counterexample). -/
def restoreProperty (cfg : Bool) (oldObjs : List SceneObj) (assets : List AssetSpec) : Prop :=
  (1 ≤ assets.length →
    ((mainRun cfg oldObjs assets).oldObjs.map (fun o => o.hideRender) =
        oldObjs.map (fun o => o.hideRender)) ∧
    ((mainRun cfg oldObjs assets).oldObjs.map (fun o => o.materials) =
        oldObjs.map (fun o => o.materials)) ∧
    (mainRun cfg oldObjs assets).cameraDisposed = true) ∧
  ((∀ a ∈ assets, a.renderRaises = false) → (mainRun cfg oldObjs assets).leftover = []) ∧
  (∀ obj, (prepareShootClean cfg false obj).1.materials = obj.materials)

/-- The concrete failing run for claim C9: one asset, one material with
culling initially off, configured culling on, and a render exception. -/
def rogueAsset : AssetSpec :=
  { importResult := some { hideRender := false, materials := [some false] }
    renderRaises := true }

/-! Helper lemmas about the orchestrator state model -/

theorem zipWith_restore_hide (objs : List SceneObj) :
    List.zipWith (fun o v => { o with hideRender := v })
      (objs.map (fun o => { o with hideRender := true }))
      (objs.map (fun o => o.hideRender)) = objs := by
  induction objs with
  | nil => rfl
  | cons a t ih => cases a; simp [List.zipWith, ih]

theorem processLoopScene_no_raise (cfg : Bool) (assets : List AssetSpec)
    (h : ∀ a ∈ assets, a.renderRaises = false) : processLoopScene cfg assets = [] := by
  induction assets with
  | nil => rfl
  | cons a t ih =>
    have ha := h a (by simp)
    have ht : ∀ x ∈ t, x.renderRaises = false := fun x hx => h x (by simp [hx])
    cases him : a.importResult with
    | none => simp [processLoopScene, him, ih ht]
    | some obj => simp [processLoopScene, him, ha, prepareShootClean, ih ht]

theorem prepareShootClean_materials (cfg : Bool) (obj : SceneObj) :
    (prepareShootClean cfg false obj).1.materials = obj.materials := by
  cases obj with
  | mk hr mats =>
    simp only [prepareShootClean, if_neg Bool.false_ne_true]
    induction mats with
    | nil => rfl
    | cons mt t ih =>
      cases mt <;> simp_all [List.zipWith]

/-! Claim theorems C9, C8, C10, C7, C4 -/

/-- C9 counterexample, two failing runs. Mid-shoot exception: a run of one
asset whose material culling flag is initially off (`some false`), with the
configured culling on and an exception raised during its rendering, ends with
the imported object left in the scene and its culling flag still overridden
to `some true` - not equal to its pre-run snapshot value `some false`: the
per-asset restore at the end of `prepare_shoot_clean_object` is skipped when
the shoot raises. Zero matching models: a folder run that discovers no model
file returns from inside the try block (lines 632-634), skipping the restore
loop and the camera disposal, so a pre-run object that was visible
(`hide_render = false`) is left hidden and the camera is not disposed. Both
runs refute the claim that restoration runs unconditionally in a cleanup
phase and that no scene-global state is left mutated. -/
theorem C9_counterexample :
    ((mainRun true [] [rogueAsset]).leftover).map (fun o => o.materials) = [[some true]] ∧
    (mainRun true [] [rogueAsset]).leftover ≠ [] ∧
    (some true : Option Bool) ≠ some false ∧
    (mainRun true [{ hideRender := false, materials := [] }] []).oldObjs
      = [{ hideRender := true, materials := [] }] ∧
    (mainRun true [{ hideRender := false, materials := [] }] []).cameraDisposed = false := by
  refine ⟨rfl, by decide, by decide, rfl, rfl⟩

/-- C9 (amended): after every run that finds at least one model - successful,
partially failed, or interrupted by a render exception - every pre-run scene
object's render-visibility flag and all of its materials equal their pre-run
values and the run's camera is disposed (the restore loop and disposal run
after the except clause); when no asset's shoot raises, no imported object is
left in the scene; and an asset whose shoot completes without exception has
its materials, including their culling flags, restored exactly to their
snapshot. The two remaining paths - a zero-models run returning from inside
the try, and an asset interrupted mid-shoot keeping its overridden culling
flags - violate the original claim (see the counterexample). -/
theorem C9_restore_amended (cfg : Bool) (oldObjs : List SceneObj) (assets : List AssetSpec) :
    restoreProperty cfg oldObjs assets := by
  refine ⟨?_, ?_, ?_⟩
  · intro hne
    have hcond : ¬(assets.length < 1) := by omega
    refine ⟨?_, ?_, ?_⟩
    · simp [mainRun, hcond, zipWith_restore_hide]
    · simp [mainRun, hcond, zipWith_restore_hide]
    · simp [mainRun, hcond]
  · intro hnr
    by_cases hlen : assets.length < 1
    · simp [mainRun, hlen]
    · simpa [mainRun, hlen] using processLoopScene_no_raise cfg assets hnr
  · intro obj
    exact prepareShootClean_materials cfg obj

/-- C9 witness: the amended restore property at a concrete run. -/
theorem C9_restore_amended_witness :
    restoreProperty true [{ hideRender := false, materials := [some false] }] [rogueAsset] :=
  C9_restore_amended true [{ hideRender := false, materials := [some false] }] [rogueAsset]

/-- C8: in a folder-mode run, an import failure of one asset is caught and
recorded against that asset only and every other asset is still fully
processed: every asset whose import fails lands in the failure list with its
message, every asset whose import succeeds lands in the success list and its
object is processed, and in the concrete 3-asset scenario where asset 2's
own import fails, assets 1 and 3 appear in the success list and are processed
while asset 2 appears only in the failure list with its error. -/
theorem C8_import_isolation {α : Type} (tryImp : ModelPath → Option α × String)
    (paths : List ModelPath) : importIsolation tryImp paths := by
  constructor
  · intro p hp
    induction paths with
    | nil => cases hp
    | cons q t ih =>
      rcases List.mem_cons.mp hp with rfl | hpt
      · constructor
        · intro hnone
          simp [processModelpaths, hnone]
        · intro o ho
          simp [processModelpaths, ho]
      · have hrec := ih hpt
        constructor
        · intro hnone
          have := hrec.1 hnone
          cases hq : (tryImp q).1 <;> simp [processModelpaths, hq, this]
        · intro o ho
          have := hrec.2 o ho
          cases hq : (tryImp q).1 <;> simp [processModelpaths, hq, this.1, this.2]
  · intro a1 a2 a3 o1 o3 m1 m2 m3 h1 h2 h3
    simp [processModelpaths, h1, h2, h3]

/-- C8 witness: the isolation property at a concrete import function and a
concrete asset list. -/
theorem C8_import_isolation_witness :
    importIsolation (fun _ => ((some 0 : Option Nat), "imported"))
      [mkModelPath ("a.obj".toList) ("/r/a.obj".toList) ("/r/".toList)] :=
  C8_import_isolation (fun _ => ((some 0 : Option Nat), "imported"))
    [mkModelPath ("a.obj".toList) ("/r/a.obj".toList) ("/r/".toList)]

/-- C10: in folder import mode the start-index slice
`modelpaths[min(startSearch, len(modelpaths)):]` is applied on every run
regardless of the session value of the 'Start after first model' toggle: two
runs differing only in that toggle select the same model list, and even with
the toggle off the drop is applied, because the guard truth-tests the
always-truthy property-definition object on the WindowManager type. -/
theorem C10_startSearch_always_applied (modelpaths : List ModelPath) (o1 o2 : Bool)
    (startSearch : Nat) (limitSearch : Bool) (maxFiles : Nat) :
    selectModelpaths modelpaths o1 startSearch limitSearch maxFiles =
      selectModelpaths modelpaths o2 startSearch limitSearch maxFiles ∧
    selectModelpaths modelpaths false startSearch false maxFiles =
      modelpaths.drop (min startSearch modelpaths.length) :=
  ⟨rfl, rfl⟩

/-- C7 counterexample: the file `A.OBJ` is excluded by `getAllModelPaths` with
the standard extension set, although its extension compared case-insensitively
is an allowed extension - so the claimed case-insensitive inclusion criterion
is false on the code, whose `str.endswith` comparison is case-sensitive. -/
theorem C7_counterexample :
    getAllModelPaths [{ subdir := ("/r/".toList), files := [("A.OBJ".toList)] }]
        ("/r/".toList)
        [(".glb".toList), (".gltf".toList), (".obj".toList), (".fbx".toList)] = [] ∧
    pyEndsWithTuple (pyLower ("A.OBJ".toList))
        [(".glb".toList), (".gltf".toList), (".obj".toList), (".fbx".toList)] = true := by
  constructor <;> rfl

/-- C7 (amended): `getAllModelPaths` includes a file if and only if its name
ends, compared case-SENSITIVELY, with a member of the allowed-extension set;
the result may be empty and carries no ordering guarantee beyond the walk
order. -/
theorem C7_discovery_filter (walk : List WalkEntry) (basepath : PStr) (exts : List PStr)
    (mp : ModelPath) :
    mp ∈ getAllModelPaths walk basepath exts ↔
      ∃ e ∈ walk, ∃ file ∈ e.files, pyEndsWithTuple file exts = true ∧
        mp = mkModelPath file (osJoin (osJoin basepath e.subdir) file) basepath := by
  simp only [getAllModelPaths, List.mem_flatMap, List.mem_map, List.mem_filter]
  constructor
  · rintro ⟨e, he, file, ⟨hfe, hext⟩, rfl⟩
    exact ⟨e, he, file, hfe, hext, rfl⟩
  · rintro ⟨e, he, file, hfe, hext, rfl⟩
    exact ⟨e, he, file, ⟨hfe, hext⟩, rfl⟩

/-- C4 counterexample: on the degenerate zero extent the resolution
computation either silently returns the resolution (0, 0) (UniformPixelsPerUnit)
- violating the claim that both components are always at least 1 - or raises
ZeroDivisionError (UniformOutputSize), violating the claimed totality; no
configuration error is reported in either case. -/
theorem C4_counterexample :
    computeResolution .uniformscale .evensize 256 1024 ((0 : ℚ), (0 : ℚ)) = some (0, 0) ∧
    ¬(1 ≤ (0 : Int)) ∧
    computeResolution .samesize .evensize 256 1024 ((0 : ℚ), (0 : ℚ)) = none := by
  refine ⟨?_, by decide, ?_⟩
  · simp [computeResolution, computePxPerUnit]
  · simp [computeResolution, computePxPerUnit, pyDiv]

/-- C4 (amended): for every scale mode and divide mode, whenever both view
extent components are positive (and the configured pixels-per-unit and max
dimension are positive), the resolution computation succeeds - no division by
zero - and both resolution components are at least 1; the zero-extent case is
exactly where this fails (see the counterexample), with no configuration-error
report in the code. -/
theorem C4_resolution_positive (scaleMode : ScaleMode) (divideMode : DivideMode)
    (imgSize maxImageSize : ℚ) (vs : ℚ × ℚ)
    (h1 : 0 < vs.1) (h2 : 0 < vs.2) (hp : 0 < imgSize) (hmdim : 0 < maxImageSize) :
    ∃ r, computeResolution scaleMode divideMode imgSize maxImageSize vs = some r ∧
      1 ≤ r.1 ∧ 1 ≤ r.2 := by
  have hmax : 0 < max vs.1 vs.2 := lt_of_lt_of_le h1 (le_max_left _ _)
  have key : ∀ a : ℚ, 0 < a → (1 : Int) ≤ Int.ceil a := by
    intro a ha
    have h0 : (0 : Int) < Int.ceil a := Int.lt_ceil.mpr (by exact_mod_cast ha)
    omega
  have hdivpos : 0 < maxImageSize / max vs.1 vs.2 := div_pos hmdim hmax
  cases scaleMode with
  | samesize =>
    refine ⟨(Int.ceil (maxImageSize / max vs.1 vs.2 * vs.1),
             Int.ceil (maxImageSize / max vs.1 vs.2 * vs.2)), ?_, ?_, ?_⟩
    · simp [computeResolution, computePxPerUnit, pyDiv, hmax.ne']
    · exact key _ (mul_pos hdivpos h1)
    · exact key _ (mul_pos hdivpos h2)
  | uniformscale =>
    by_cases hdm : divideMode = DivideMode.reduceres
    · by_cases hg : maxImageSize < max vs.1 vs.2 * imgSize
      · refine ⟨(Int.ceil (maxImageSize / max vs.1 vs.2 * vs.1),
                 Int.ceil (maxImageSize / max vs.1 vs.2 * vs.2)), ?_, ?_, ?_⟩
        · simp [computeResolution, computePxPerUnit, hdm, hg, pyDiv, hmax.ne']
        · exact key _ (mul_pos hdivpos h1)
        · exact key _ (mul_pos hdivpos h2)
      · refine ⟨(Int.ceil (imgSize * vs.1), Int.ceil (imgSize * vs.2)), ?_, ?_, ?_⟩
        · simp [computeResolution, computePxPerUnit, hdm, hg]
        · exact key _ (mul_pos hp h1)
        · exact key _ (mul_pos hp h2)
    · refine ⟨(Int.ceil (imgSize * vs.1), Int.ceil (imgSize * vs.2)), ?_, ?_, ?_⟩
      · simp [computeResolution, computePxPerUnit, hdm]
      · exact key _ (mul_pos hp h1)
      · exact key _ (mul_pos hp h2)

/-! Helper lemmas about piecesCount -/

theorem piecesCount_le_iff {res m : Nat} (hm : 1 ≤ m) (n : Nat) :
    piecesCount res m ≤ n ↔ res ≤ m * n := by
  have hm' : (0 : ℚ) < (m : ℚ) := by exact_mod_cast hm
  rw [piecesCount, Nat.ceil_le, div_le_iff₀ hm',
    show ((n : ℚ) * (m : ℚ)) = ((m * n : Nat) : ℚ) by push_cast; ring, Nat.cast_le]

theorem piecesCount_pos {res m : Nat} (hres : 1 ≤ res) (hm : 1 ≤ m) :
    1 ≤ piecesCount res m := by
  have : (0 : ℚ) < (res : ℚ) / (m : ℚ) :=
    div_pos (by exact_mod_cast hres) (by exact_mod_cast hm)
  exact Nat.ceil_pos.mpr this

theorem le_mul_piecesCount {res m : Nat} (hm : 1 ≤ m) :
    res ≤ m * piecesCount res m :=
  (piecesCount_le_iff hm _).mp le_rfl

theorem mul_lt_of_lt_piecesCount {res m i : Nat} (hm : 1 ≤ m)
    (hi : i < piecesCount res m) : m * i < res := by
  have hm' : (0 : ℚ) < (m : ℚ) := by exact_mod_cast hm
  have hq := Nat.lt_ceil.mp hi
  rw [lt_div_iff₀ hm'] at hq
  have : ((m * i : Nat) : ℚ) < (res : ℚ) := by push_cast; linarith
  exact_mod_cast this

theorem piecesCount_4096 : piecesCount 4096 4096 = 1 := by
  have h1 : piecesCount 4096 4096 ≤ 1 :=
    (piecesCount_le_iff (by norm_num) 1).mpr (by norm_num)
  have h2 : 1 ≤ piecesCount 4096 4096 := piecesCount_pos (by norm_num) (by norm_num)
  omega

theorem piecesCount_4097 : piecesCount 4097 4096 = 2 := by
  have h1 : piecesCount 4097 4096 ≤ 2 :=
    (piecesCount_le_iff (by norm_num) 2).mpr (by norm_num)
  have h2 : ¬ piecesCount 4097 4096 ≤ 1 := by
    rw [piecesCount_le_iff (by norm_num) 1]
    norm_num
  omega

/-! Claim theorems C2 and C3 -/

/-- C2: the tiling decomposition follows its reference definition: the tile
counts are exactly the ceilings of `w / m` and `h / m` (characterized by
`tileCount <= n` iff `res <= m * n`); when both counts are 1 a single
full-frame render with the crop border disabled is written to `basepath`
unmodified; otherwise the renders are exactly the tiles at 0-based grid
positions `(row, col)`, each written to
`basepath + "_" + (row+1) + "_" + (col+1)` (a pure, deterministic function of
its inputs); and in particular `w = 4096, m = 4096` gives one tile while
`w = 4097, m = 4096` gives two, the second spanning normalized
`[4096/4097, 1]`, i.e. exactly 1 pixel wide. -/
theorem C2_tiling_reference (basepath : String) (w h m : Nat) (mode : DivideMode)
    (b0 : Border) (hm : 1 ≤ m) :
    tilingReference basepath w h m mode b0 ∧
    piecesCount 4096 4096 = 1 ∧ piecesCount 4097 4096 = 2 ∧
    (renderTile basepath 4097 4096 4096 .maxsize b0 1 0).border.xmin = 4096 / 4097 ∧
    (renderTile basepath 4097 4096 4096 .maxsize b0 1 0).border.xmax = 1 := by
  refine ⟨⟨piecesCount_le_iff hm, piecesCount_le_iff hm, ?_, ?_, fun row col => rfl⟩,
    piecesCount_4096, piecesCount_4097, ?_, ?_⟩
  · intro h1 h2
    simp [render, h1, h2]
  · intro hns ro
    simp only [render, if_neg hns, List.mem_flatMap, List.mem_map, List.mem_range]
    constructor
    · rintro ⟨row, hrow, col, hcol, rfl⟩
      exact ⟨row, hrow, col, hcol, rfl⟩
    · rintro ⟨row, hrow, col, hcol, rfl⟩
      exact ⟨row, hrow, col, hcol, rfl⟩
  · norm_num [renderTile, tileBorder]
  · norm_num [renderTile, tileBorder]

/-- C2 witness: the tiling reference behavior at a concrete input. -/
theorem C2_tiling_reference_witness :
    (1 : Nat) ≤ 4096 ∧
    (tilingReference ("base") 4097 4096 4096 DivideMode.maxsize unitBorder ∧
      piecesCount 4096 4096 = 1 ∧ piecesCount 4097 4096 = 2 ∧
      (renderTile ("base") 4097 4096 4096 .maxsize unitBorder 1 0).border.xmin = 4096 / 4097 ∧
      (renderTile ("base") 4097 4096 4096 .maxsize unitBorder 1 0).border.xmax = 1) :=
  ⟨by norm_num,
   C2_tiling_reference ("base") 4097 4096 4096 DivideMode.maxsize unitBorder (by norm_num)⟩

/-- C3: the resolution policy computes: under UniformOutputSize,
`pxPerUnit = maxDimension / max(extent)` and the resolution is the pair of
ceilings, so the longer axis equals the ceiling of `maxDimension`; under
UniformPixelsPerUnit with ReducePixelsPerUnit the configured pixels-per-unit
is kept unless the uncapped size would exceed `maxDimension`, in which case it
is recomputed as `maxDimension / max(extent)`; and under UniformPixelsPerUnit
with EvenSplit or MaxSizeSplit the resolution is passed through unreduced. -/
theorem C3_resolution_policy (imgSize maxImageSize : ℚ) (vs : ℚ × ℚ) (dm : DivideMode)
    (h1 : 0 < vs.1) (h2 : 0 < vs.2) (hmdim : 0 < maxImageSize) :
    resolutionPolicyCases imgSize maxImageSize vs dm := by
  have hmax : 0 < max vs.1 vs.2 := lt_of_lt_of_le h1 (le_max_left _ _)
  have hdiv : (0 : ℚ) ≤ maxImageSize / max vs.1 vs.2 := le_of_lt (div_pos hmdim hmax)
  refine ⟨?_, ?_, ?_, ?_, ?_⟩
  · simp [computeResolution, computePxPerUnit, pyDiv, hmax.ne']
  · rw [← Monotone.map_max Int.ceil_mono, ← mul_max_of_nonneg vs.1 vs.2 hdiv,
      div_mul_cancel₀ _ hmax.ne']
  · intro hle
    simp [computePxPerUnit, not_lt.mpr hle]
  · intro hgt
    simp [computePxPerUnit, hgt, pyDiv, hmax.ne']
  · rintro (rfl | rfl) <;> simp [computeResolution, computePxPerUnit]

/-- C3 witness: the resolution-policy cases at the spec's own example,
`viewExtent = (2,1)`, `maxDimension = 1024`, `pixelsPerUnit = 256`. -/
theorem C3_resolution_policy_witness :
    (0 < ((2 : ℚ), (1 : ℚ)).1 ∧ 0 < ((2 : ℚ), (1 : ℚ)).2 ∧ (0 : ℚ) < 1024) ∧
    resolutionPolicyCases 256 1024 ((2 : ℚ), (1 : ℚ)) DivideMode.evensize :=
  ⟨by norm_num,
   C3_resolution_policy 256 1024 ((2 : ℚ), (1 : ℚ)) DivideMode.evensize
     (by norm_num) (by norm_num) (by norm_num)⟩

/-- C4 witness: the amended positivity property at a concrete input. -/
theorem C4_resolution_positive_witness :
    (0 < ((2 : ℚ), (1 : ℚ)).1 ∧ 0 < ((2 : ℚ), (1 : ℚ)).2 ∧
      (0 : ℚ) < 256 ∧ (0 : ℚ) < 1024) ∧
    ∃ r, computeResolution .samesize .evensize 256 1024 ((2 : ℚ), (1 : ℚ)) = some r ∧
      1 ≤ r.1 ∧ 1 ≤ r.2 :=
  ⟨by norm_num,
   C4_resolution_positive .samesize .evensize 256 1024 ((2 : ℚ), (1 : ℚ))
     (by norm_num) (by norm_num) (by norm_num) (by norm_num)⟩

/-! Claim theorem C6 -/

/-- C6: destinationPath is a pure total function of its inputs and follows the
four naming policies of the specification: Flatten, KeepRelativePath,
FlattenNamedByFullPath (separators replaced by underscores) and
FlattenNamedByFolder, each wrapped in the Prepend/Append suffix rule; stated
as a refinement of the spec-worded `destinationPathSpec` over the normalized
relative subpath (the code's subpath may carry one trailing separator, which
it strips). The spec's round-trip example for name "cube", direction "Z" is
included: Append gives basename `cube_Z`, Prepend gives `Z_cube`. -/
theorem C6_destination_path (m : ModelPath) (rel direction exportRoot : PStr)
    (pm : ExportPathMode) (nm : ExportNameMode)
    (hrel : rel.getLast? ≠ some sep)
    (hsub : m.subpath = rel ∨ m.subpath = rel ++ [sep]) :
    imageExportPath m direction exportRoot pm nm =
      destinationPathSpec m.name rel direction exportRoot pm nm ∧
    imageExportPath (mkModelPath ("cube.obj".toList) ("/r/cube.obj".toList) ("/r/".toList))
        ("Z".toList) ("/e".toList) .flatten .append = ("/e/cube_Z".toList) ∧
    imageExportPath (mkModelPath ("cube.obj".toList) ("/r/cube.obj".toList) ("/r/".toList))
        ("Z".toList) ("/e".toList) .flatten .prepend = ("/e/Z_cube".toList) := by
  refine ⟨?_, rfl, rfl⟩
  have htrim : (if m.subpath.getLast? = some sep then m.subpath.dropLast else m.subpath)
      = rel := by
    rcases hsub with hcase | hcase
    · rw [hcase, if_neg hrel]
    · rw [hcase, if_pos (List.getLast?_concat rel), List.dropLast_concat]
  cases pm <;> cases nm <;>
    simp only [imageExportPath, destinationPathSpec, suffixName, suffixedSpec, htrim]

/-- C6 witness: the refinement and the round-trip example at the concrete
asset `cube.obj` directly under the source root. -/
theorem C6_destination_path_witness :
    (([] : PStr).getLast? ≠ some sep) ∧
    ((mkModelPath ("cube.obj".toList) ("/r/cube.obj".toList) ("/r/".toList)).subpath
        = ([] : PStr) ∨
      (mkModelPath ("cube.obj".toList) ("/r/cube.obj".toList) ("/r/".toList)).subpath
        = ([] : PStr) ++ [sep]) ∧
    (imageExportPath (mkModelPath ("cube.obj".toList) ("/r/cube.obj".toList) ("/r/".toList))
        ("Z".toList) ("/e".toList) ExportPathMode.keeppath ExportNameMode.append =
      destinationPathSpec
        (mkModelPath ("cube.obj".toList) ("/r/cube.obj".toList) ("/r/".toList)).name
        ([] : PStr) ("Z".toList) ("/e".toList) ExportPathMode.keeppath ExportNameMode.append ∧
     imageExportPath (mkModelPath ("cube.obj".toList) ("/r/cube.obj".toList) ("/r/".toList))
        ("Z".toList) ("/e".toList) .flatten .append = ("/e/cube_Z".toList) ∧
     imageExportPath (mkModelPath ("cube.obj".toList) ("/r/cube.obj".toList) ("/r/".toList))
        ("Z".toList) ("/e".toList) .flatten .prepend = ("/e/Z_cube".toList)) := by
  refine ⟨by decide, Or.inl (by decide), ?_⟩
  exact C6_destination_path
    (mkModelPath ("cube.obj".toList) ("/r/cube.obj".toList) ("/r/".toList))
    ([] : PStr) ("Z".toList) ("/e".toList) ExportPathMode.keeppath ExportNameMode.append
    (by decide) (Or.inl (by decide))

/-! Helper lemmas for the discovery and ordering claims -/

theorem dropWhile_bs_eq_self {l : PStr} (h : '\\' ∉ l) :
    l.dropWhile (fun c => c = '\\') = l := by
  cases l with
  | nil => rfl
  | cons a t =>
    have ha : ¬(a = '\\') := fun e => h (by rw [e]; exact List.mem_cons_self _ _)
    rw [List.dropWhile_cons, if_neg (by simpa using ha)]

theorem stripBackslash_eq_self {l : PStr} (h : '\\' ∉ l) : stripBackslash l = l := by
  rw [stripBackslash, dropWhile_bs_eq_self h,
    dropWhile_bs_eq_self (by simpa using h), List.reverse_reverse]

theorem pySplit_ne_nil (c : Char) (l : PStr) : pySplit c l ≠ [] := by
  induction l with
  | nil => simp [pySplit]
  | cons a t ih =>
    simp only [pySplit]
    cases hsp : pySplit c t with
    | nil => exact absurd hsp ih
    | cons p ps => by_cases hac : a = c <;> simp [hac]

theorem pySplit_length (c : Char) (l : PStr) :
    (pySplit c l).length = List.count c l + 1 := by
  induction l with
  | nil => simp [pySplit]
  | cons a t ih =>
    simp only [pySplit]
    cases hsp : pySplit c t with
    | nil => exact absurd hsp (pySplit_ne_nil c t)
    | cons p ps =>
      rw [hsp] at ih
      simp only [List.length_cons] at ih
      show (if a = c then ([] : PStr) :: p :: ps else (a :: p) :: ps).length
          = List.count c (a :: t) + 1
      by_cases hac : a = c
      · rw [if_pos hac]
        have hcnt : List.count c (a :: t) = List.count c t + 1 := by
          simp [List.count_cons, hac]
        rw [hcnt]
        simp only [List.length_cons]
        omega
      · rw [if_neg hac]
        have hcnt : List.count c (a :: t) = List.count c t := by
          simp [List.count_cons, hac]
        rw [hcnt]
        simp only [List.length_cons]
        omega

theorem count_subdirStr : ∀ (comps : List PStr), (∀ c ∈ comps, sep ∉ c) →
    List.count sep (subdirStr comps) = comps.length := by
  intro comps
  induction comps with
  | nil => intro _; rfl
  | cons a t ih =>
    intro hc
    have ha : sep ∉ a := hc a (by simp)
    have ht : ∀ c ∈ t, sep ∉ c := fun c hct => hc c (by simp [hct])
    have iht := ih ht
    rw [subdirStr] at iht ⊢
    simp only [List.map_cons, List.flatten_cons]
    have h1 : List.count sep [sep] = 1 := by simp
    rw [List.count_append, List.count_append, List.count_eq_zero.mpr ha, iht, h1]
    simp only [List.length_cons]
    omega

theorem not_bs_subdirStr (comps : List PStr)
    (hc : ∀ c ∈ comps, '\\' ∉ c) : '\\' ∉ subdirStr comps := by
  intro hmem
  rw [subdirStr, List.mem_flatten] at hmem
  obtain ⟨l, hl, hxl⟩ := hmem
  rw [List.mem_map] at hl
  obtain ⟨c, hcmem, rfl⟩ := hl
  rcases List.mem_append.mp hxl with hx | hx
  · exact hc c hcmem hx
  · simp only [List.mem_singleton] at hx
    exact absurd hx (by decide)

theorem subdirStr_head_ne (comps : List PStr)
    (hc : ∀ c ∈ comps, c ≠ [] ∧ sep ∉ c) : (subdirStr comps).head? ≠ some sep := by
  cases comps with
  | nil => simp [subdirStr]
  | cons a t =>
    obtain ⟨hne, hnosep⟩ := hc a (by simp)
    cases a with
    | nil => exact absurd rfl hne
    | cons a0 arest =>
      simp only [subdirStr, List.map_cons, List.flatten_cons, List.cons_append,
        List.head?_cons, ne_eq, Option.some.injEq]
      intro he
      exact hnosep (he ▸ List.mem_cons_self a0 arest)

theorem mkModelPath_fields {s : PStr} {comps : List PStr} {f : PStr}
    (hwf : WellFormedAsset s comps f) :
    (discoveredModel s comps f).subpath = subdirStr comps ∧
    (discoveredModel s comps f).filename = f ∧
    (discoveredModel s comps f).pathminusfilename = s ++ subdirStr comps := by
  have hnb_sub : '\\' ∉ subdirStr comps :=
    not_bs_subdirStr comps (fun c hcm => (hwf.comps_ok c hcm).2.2)
  have hspu : stripBackslash s = s := stripBackslash_eq_self hwf.src_nobs
  have hfind : pyFind (discoveredPath s comps f) f =
      ((s.length + (subdirStr comps).length : Nat) : Int) := by
    rw [pyFind, hwf.find_at]
  have hlen : (discoveredPath s comps f).length =
      s.length + (subdirStr comps).length + f.length := by
    rw [discoveredPath, List.length_append, List.length_append]
  have hslice : pySlice (discoveredPath s comps f) ((stripBackslash s).length : Int)
      (pyFind (discoveredPath s comps f) f) = subdirStr comps := by
    rw [hfind, hspu, pySlice, pySliceIdx, pySliceIdx,
      if_neg (by omega), if_neg (by omega), Int.toNat_natCast, Int.toNat_natCast,
      min_eq_left (by omega), min_eq_left (by omega)]
    rw [show s.length + (subdirStr comps).length = (s ++ subdirStr comps).length from
      (List.length_append s (subdirStr comps)).symm]
    rw [discoveredPath, List.take_left, List.drop_left]
  refine ⟨?_, rfl, ?_⟩
  · show stripBackslash (pySlice (discoveredPath s comps f)
      (((stripBackslash s).length : Nat) : Int) (pyFind (discoveredPath s comps f) f))
        = subdirStr comps
    rw [hslice, stripBackslash_eq_self hnb_sub]
  · show osJoin (stripBackslash s)
      (stripBackslash (pySlice (discoveredPath s comps f)
        (((stripBackslash s).length : Nat) : Int) (pyFind (discoveredPath s comps f) f)))
        = s ++ subdirStr comps
    rw [hslice, stripBackslash_eq_self hnb_sub, hspu, osJoin,
      if_neg (subdirStr_head_ne comps
        (fun c hcm => ⟨(hwf.comps_ok c hcm).1, (hwf.comps_ok c hcm).2.1⟩)),
      if_neg hwf.src_ne, if_pos hwf.src_last]

theorem foldercount_discovered {s : PStr} {comps : List PStr} {f : PStr}
    (hwf : WellFormedAsset s comps f) :
    foldercount (discoveredModel s comps f) = List.count sep s + comps.length + 1 := by
  rw [foldercount, (mkModelPath_fields hwf).2.2, pySplit_length, List.count_append,
    count_subdirStr comps (fun c hcm => (hwf.comps_ok c hcm).2.1)]

theorem pyStrLtB_trichotomy (a b : PStr) :
    pyStrLtB a b = true ∨ pyStrLtB b a = true ∨ a = b := by
  induction a generalizing b with
  | nil => cases b <;> simp [pyStrLtB]
  | cons x xs ih =>
    cases b with
    | nil => simp [pyStrLtB]
    | cons y ys =>
      by_cases hxy : x = y
      · subst hxy
        rcases ih ys with hcase | hcase | hcase
        · left; simp [pyStrLtB, hcase]
        · right; left; simp [pyStrLtB, hcase]
        · right; right; rw [hcase]
      · rcases lt_trichotomy x y with hcase | hcase | hcase
        · left
          rw [pyStrLtB, if_neg hxy]
          exact decide_eq_true hcase
        · exact absurd hcase hxy
        · right; left
          rw [pyStrLtB, if_neg (Ne.symm hxy)]
          exact decide_eq_true hcase

/-! Claim theorems C5 -/

/-- C5 counterexample: two distinct discovered assets (same filename `m.obj`
in two different folders at equal depth) are unordered in both directions
under `ModelPath.__lt__`, and are not equal under `ModelPath.__eq__`; so the
relation is not a total order on distinct assets and the sorted position of
such a pair depends on the filesystem enumeration order, refuting the claimed
enumeration-order independence. -/
theorem C5_counterexample :
    modelLt (mkModelPath ("m.obj".toList) ("/r/x/m.obj".toList) ("/r/".toList))
        (mkModelPath ("m.obj".toList) ("/r/y/m.obj".toList) ("/r/".toList)) = false ∧
    modelLt (mkModelPath ("m.obj".toList) ("/r/y/m.obj".toList) ("/r/".toList))
        (mkModelPath ("m.obj".toList) ("/r/x/m.obj".toList) ("/r/".toList)) = false ∧
    modelEq (mkModelPath ("m.obj".toList) ("/r/x/m.obj".toList) ("/r/".toList))
        (mkModelPath ("m.obj".toList) ("/r/y/m.obj".toList) ("/r/".toList)) = false := by
  refine ⟨rfl, rfl, by decide⟩

/-- C5 (amended): for well-formed discovered assets under one source root,
`ModelPath.__lt__` orders every pair by the key (folder depth of the relative
subpath, case-insensitive filename): with differing depth the shallower sorts
first regardless of name (in particular a file directly under the root sorts
before any file one folder deeper), and with equal depth the case-insensitive
filename comparison decides; any two assets are comparable unless they agree
on the whole key (equal depth and equal case-insensitive filename), in which
case they are mutually unordered and their relative position depends on the
enumeration order (see the counterexample). -/
theorem C5_ordering {s : PStr} {xs ys : List PStr} {f g : PStr}
    (hA : WellFormedAsset s xs f) (hB : WellFormedAsset s ys g) :
    (xs.length < ys.length →
        modelLt (discoveredModel s xs f) (discoveredModel s ys g) = true ∧
        modelLt (discoveredModel s ys g) (discoveredModel s xs f) = false) ∧
    (xs.length = ys.length →
        modelLt (discoveredModel s xs f) (discoveredModel s ys g)
          = pyStrLtB (pyLower f) (pyLower g)) ∧
    (modelLt (discoveredModel s xs f) (discoveredModel s ys g) = true ∨
      modelLt (discoveredModel s ys g) (discoveredModel s xs f) = true ∨
      (foldercount (discoveredModel s xs f) = foldercount (discoveredModel s ys g) ∧
        pyLower f = pyLower g)) := by
  have dA := foldercount_discovered hA
  have dB := foldercount_discovered hB
  have fA : (discoveredModel s xs f).filename = f := (mkModelPath_fields hA).2.1
  have fB : (discoveredModel s ys g).filename = g := (mkModelPath_fields hB).2.1
  refine ⟨?_, ?_, ?_⟩
  · intro hlt
    constructor
    · rw [modelLt, dA, dB, if_neg (by omega)]
      exact decide_eq_true (by omega)
    · rw [modelLt, dA, dB, if_neg (by omega)]
      exact decide_eq_false (by omega)
  · intro heq
    rw [modelLt, dA, dB, if_pos (by omega), fA, fB]
  · rcases Nat.lt_trichotomy xs.length ys.length with hlt | heq | hgt
    · left
      rw [modelLt, dA, dB, if_neg (by omega)]
      exact decide_eq_true (by omega)
    · rcases pyStrLtB_trichotomy (pyLower f) (pyLower g) with hcase | hcase | hcase
      · left
        rw [modelLt, dA, dB, if_pos (by omega), fA, fB]
        exact hcase
      · right; left
        rw [modelLt, dA, dB, if_pos (by omega), fA, fB]
        exact hcase
      · right; right
        exact ⟨by omega, hcase⟩
    · right; left
      rw [modelLt, dA, dB, if_neg (by omega)]
      exact decide_eq_true (by omega)

/-- C5 witness: the ordering at two concrete well-formed assets, `a.obj`
directly under the root and `b.obj` one folder deeper. -/
theorem C5_ordering_witness :
    WellFormedAsset ("/r/".toList) [] ("a.obj".toList) ∧
    WellFormedAsset ("/r/".toList) [("x".toList)] ("b.obj".toList) ∧
    ((([] : List PStr).length < [("x".toList)].length →
        modelLt (discoveredModel ("/r/".toList) [] ("a.obj".toList))
          (discoveredModel ("/r/".toList) [("x".toList)] ("b.obj".toList)) = true ∧
        modelLt (discoveredModel ("/r/".toList) [("x".toList)] ("b.obj".toList))
          (discoveredModel ("/r/".toList) [] ("a.obj".toList)) = false) ∧
      (([] : List PStr).length = [("x".toList)].length →
        modelLt (discoveredModel ("/r/".toList) [] ("a.obj".toList))
          (discoveredModel ("/r/".toList) [("x".toList)] ("b.obj".toList))
          = pyStrLtB (pyLower ("a.obj".toList)) (pyLower ("b.obj".toList))) ∧
      (modelLt (discoveredModel ("/r/".toList) [] ("a.obj".toList))
          (discoveredModel ("/r/".toList) [("x".toList)] ("b.obj".toList)) = true ∨
        modelLt (discoveredModel ("/r/".toList) [("x".toList)] ("b.obj".toList))
          (discoveredModel ("/r/".toList) [] ("a.obj".toList)) = true ∨
        (foldercount (discoveredModel ("/r/".toList) [] ("a.obj".toList))
            = foldercount (discoveredModel ("/r/".toList) [("x".toList)] ("b.obj".toList)) ∧
          pyLower ("a.obj".toList) = pyLower ("b.obj".toList)))) := by
  have hA : WellFormedAsset ("/r/".toList) [] ("a.obj".toList) :=
    ⟨by decide, by decide, by decide, by decide, by decide, by decide, by decide, by decide⟩
  have hB : WellFormedAsset ("/r/".toList) [("x".toList)] ("b.obj".toList) :=
    ⟨by decide, by decide, by decide, by decide, by decide, by decide, by decide, by decide⟩
  exact ⟨hA, hB, C5_ordering hA hB⟩

/-! Helper lemmas for the tiling partition claim -/

theorem boundary_mono_le (f : Nat → ℚ) (n : Nat)
    (hmono : ∀ i, i < n → f i < f (i + 1)) :
    ∀ i j, i ≤ j → j ≤ n → f i ≤ f j := by
  intro i j
  induction j with
  | zero =>
    intro hij _
    have h0 := Nat.le_zero.mp hij
    subst h0
    exact le_rfl
  | succ k ih =>
    intro hij hjn
    rcases Nat.eq_or_lt_of_le hij with heq | hlt
    · rw [heq]
    · have hik : i ≤ k := Nat.lt_succ_iff.mp hlt
      exact le_trans (ih hik (Nat.le_of_succ_le hjn))
        (le_of_lt (hmono k (Nat.lt_of_succ_le hjn)))

theorem boundary_cover (f : Nat → ℚ) :
    ∀ n : Nat, 1 ≤ n → (∀ i, i < n → f i < f (i + 1)) →
      ∀ x : ℚ, f 0 ≤ x → x ≤ f n → ∃ i, i < n ∧ f i ≤ x ∧ x ≤ f (i + 1) := by
  intro n
  induction n with
  | zero => intro h1; exact absurd h1 (by omega)
  | succ k ih =>
    intro _ hm x hx0 hxn
    by_cases hk : k = 0
    · subst hk
      exact ⟨0, by omega, hx0, hxn⟩
    · by_cases hle : x ≤ f k
      · obtain ⟨i, hi, hl, hr⟩ := ih (by omega) (fun i hik => hm i (by omega)) x hx0 hle
        exact ⟨i, by omega, hl, hr⟩
      · exact ⟨k, by omega, le_of_lt (lt_of_not_le hle), hxn⟩

theorem boundary_disjoint (f : Nat → ℚ) (n : Nat)
    (hmono : ∀ i, i < n → f i < f (i + 1)) {i j : Nat} (hij : i < j) (hj : j < n)
    {x : ℚ} (hxi : x < f (i + 1)) (hxj : f j < x) : False := by
  have hle : f (i + 1) ≤ f j :=
    boundary_mono_le f n hmono (i + 1) j hij (le_of_lt hj)
  linarith

theorem list_sum_map_range (f : Nat → ℚ) (n : Nat) :
    ((List.range n).map f).sum = ∑ i ∈ Finset.range n, f i := by
  induction n with
  | zero => rfl
  | succ k ih =>
    rw [List.range_succ, List.map_append, List.sum_append, Finset.sum_range_succ, ih]
    simp

theorem sum_map_map_flatMap (F : RenderOut → ℚ) (g : Nat → Nat → RenderOut)
    (px py : Nat) :
    ((((List.range px).flatMap (fun r => (List.range py).map (g r))).map F).sum)
      = ∑ r ∈ Finset.range px, ∑ c ∈ Finset.range py, F (g r c) := by
  induction px with
  | zero => rfl
  | succ k ih =>
    rw [List.range_succ, List.flatMap_append, List.map_append, List.sum_append,
      Finset.sum_range_succ, ih]
    simp only [List.flatMap_cons, List.flatMap_nil, List.append_nil, List.map_map]
    rw [list_sum_map_range]
    rfl

theorem pairwise_flatMap_range {α : Type} (R : α → α → Prop) (g : Nat → List α) (n : Nat)
    (hwithin : ∀ i, i < n → (g i).Pairwise R)
    (hacross : ∀ i j, i < j → j < n → ∀ a ∈ g i, ∀ b ∈ g j, R a b) :
    ((List.range n).flatMap g).Pairwise R := by
  induction n with
  | zero => simp
  | succ k ih =>
    rw [List.range_succ, List.flatMap_append, List.pairwise_append]
    refine ⟨ih (fun i hi => hwithin i (by omega))
      (fun i j h1 h2 => hacross i j h1 (by omega)), ?_, ?_⟩
    · simpa using hwithin k (by omega)
    · intro a ha b hb
      rw [List.mem_flatMap] at ha
      obtain ⟨i, hi, hai⟩ := ha
      rw [List.mem_range] at hi
      have hbk : b ∈ g k := by simpa using hb
      exact hacross i k hi (by omega) a hai b hbk

theorem xBound_zero (res maxRes : Nat) (mode : DivideMode) :
    xBound res maxRes mode 0 = 0 := by
  cases mode with
  | reduceres => rfl
  | evensize => simp [xBound, evenF]
  | maxsize => simp [xBound, maxF]

theorem xBound_last {res maxRes : Nat} (hres : 1 ≤ res) (hm : 1 ≤ maxRes)
    (mode : DivideMode) (hmode : mode = .evensize ∨ mode = .maxsize) :
    xBound res maxRes mode (piecesCount res maxRes) = 1 := by
  have hpc := piecesCount_pos hres hm
  have hpcq : ((piecesCount res maxRes : ℚ)) ≠ 0 := Nat.cast_ne_zero.mpr (by omega)
  rcases hmode with rfl | rfl
  · simp only [xBound, evenF]
    rw [one_div, inv_mul_cancel₀ hpcq]
  · simp only [xBound, maxF]
    rw [Nat.min_eq_right (le_mul_piecesCount hm)]
    exact div_self (Nat.cast_ne_zero.mpr (by omega))

theorem xBound_strictMono {res maxRes : Nat} (hres : 1 ≤ res) (hm : 1 ≤ maxRes)
    (mode : DivideMode) (hmode : mode = .evensize ∨ mode = .maxsize) :
    ∀ i, i < piecesCount res maxRes →
      xBound res maxRes mode i < xBound res maxRes mode (i + 1) := by
  intro i hi
  rcases hmode with rfl | rfl
  · have hpcq : (0 : ℚ) < (piecesCount res maxRes : ℚ) := by
      exact_mod_cast piecesCount_pos hres hm
    simp only [xBound, evenF]
    have h1 : (0 : ℚ) < 1 / (piecesCount res maxRes : ℚ) := by positivity
    have h2 : ((i : ℚ)) < ((i + 1 : Nat) : ℚ) := by push_cast; linarith
    exact mul_lt_mul_of_pos_left h2 h1
  · simp only [xBound, maxF]
    have hri : maxRes * i < res := mul_lt_of_lt_piecesCount hm hi
    rw [Nat.min_eq_left (le_of_lt hri)]
    have hmin : maxRes * i < min (maxRes * (i + 1)) res := by
      refine lt_min ?_ hri
      have hexp : maxRes * (i + 1) = maxRes * i + maxRes := by ring
      omega
    have hcast : ((maxRes * i : Nat) : ℚ) < ((min (maxRes * (i + 1)) res : Nat) : ℚ) := by
      exact_mod_cast hmin
    have hresq : (0 : ℚ) < (res : ℚ) := by exact_mod_cast hres
    rw [div_lt_div_iff₀ hresq hresq]
    exact mul_lt_mul_of_pos_right hcast hresq

theorem tileBorder_eq {w h m : Nat} (hm : 1 ≤ m) (mode : DivideMode)
    (hmode : mode = .evensize ∨ mode = .maxsize) (b0 : Border) {r c : Nat}
    (hr : r < piecesCount w m) (hc : c < piecesCount h m) :
    tileBorder w h m mode b0 r c =
      { xmin := xBound w m mode r, xmax := xBound w m mode (r + 1),
        ymin := xBound h m mode c, ymax := xBound h m mode (c + 1) } := by
  rcases hmode with rfl | rfl
  · simp only [tileBorder, xBound, evenF]
    congr 1 <;> push_cast <;> ring
  · simp only [tileBorder, xBound, maxF]
    congr 1 <;>
      first
        | rfl
        | rw [Nat.min_eq_left (le_of_lt (mul_lt_of_lt_piecesCount hm hr))]
        | rw [Nat.min_eq_left (le_of_lt (mul_lt_of_lt_piecesCount hm hc))]

/-! Claim theorem C1 -/

/-- C1: for every target resolution (w, h) (each at least 1 pixel) and
positive maxDimension, under either divide mode EvenSplit or MaxSizeSplit the
set of normalized crop boxes produced by the tiled render exactly partitions
the unit square [0,1]x[0,1]: the union of the boxes covers it with no gap,
distinct boxes have disjoint interiors (they meet at most on their shared
boundary), adjacent tiles' boundary coordinates coincide exactly, and the box
areas sum to 1. -/
theorem C1_tiling_partition (basepath : String) (w h m : Nat) (mode : DivideMode)
    (b0 : Border) (hw : 1 ≤ w) (hh : 1 ≤ h) (hm : 1 ≤ m)
    (hmode : mode = .evensize ∨ mode = .maxsize) :
    tilesPartitionUnitSquare (render basepath w h m mode b0) ∧
    adjacentBoundariesMatch basepath w h m mode b0 := by
  have hpx1 : 1 ≤ piecesCount w m := piecesCount_pos hw hm
  have hpy1 : 1 ≤ piecesCount h m := piecesCount_pos hh hm
  have hFx0 : xBound w m mode 0 = 0 := xBound_zero w m mode
  have hFy0 : xBound h m mode 0 = 0 := xBound_zero h m mode
  have hFxn : xBound w m mode (piecesCount w m) = 1 := xBound_last hw hm mode hmode
  have hFyn : xBound h m mode (piecesCount h m) = 1 := xBound_last hh hm mode hmode
  have hFxm := xBound_strictMono hw hm mode hmode
  have hFym := xBound_strictMono hh hm mode hmode
  have heff : ∀ r c : Nat, effectiveBorder (renderTile basepath w h m mode b0 r c)
      = tileBorder w h m mode b0 r c := fun r c => rfl
  have hAdj : adjacentBoundariesMatch basepath w h m mode b0 := by
    constructor
    · intro r c hr hc
      show (tileBorder w h m mode b0 r c).xmax = (tileBorder w h m mode b0 (r + 1) c).xmin
      rw [tileBorder_eq hm mode hmode b0 (show r < piecesCount w m by omega) hc,
        tileBorder_eq hm mode hmode b0 hr hc]
    · intro r c hr hc
      show (tileBorder w h m mode b0 r c).ymax = (tileBorder w h m mode b0 r (c + 1)).ymin
      rw [tileBorder_eq hm mode hmode b0 hr (show c < piecesCount h m by omega),
        tileBorder_eq hm mode hmode b0 hr hc]
  have htele_x : ∑ r ∈ Finset.range (piecesCount w m),
      (xBound w m mode (r + 1) - xBound w m mode r) = 1 := by
    rw [Finset.sum_range_sub (xBound w m mode), hFxn, hFx0]
    norm_num
  have htele_y : ∑ c ∈ Finset.range (piecesCount h m),
      (xBound h m mode (c + 1) - xBound h m mode c) = 1 := by
    rw [Finset.sum_range_sub (xBound h m mode), hFyn, hFy0]
    norm_num
  by_cases hsingle : piecesCount w m = 1 ∧ piecesCount h m = 1
  · have hrender : render basepath w h m mode b0 =
        [{ filepath := basepath, useBorder := false, useCrop := false, border := b0 }] := by
      simp [render, hsingle.1, hsingle.2]
    refine ⟨⟨?_, ?_, ?_⟩, hAdj⟩
    · intro x y hx0 hx1 hy0 hy1
      refine ⟨{ xmin := 0, xmax := 1, ymin := 0, ymax := 1 }, ?_, ?_⟩
      · rw [hrender]
        simp [effectiveBorder]
      · exact ⟨hx0, hx1, hy0, hy1⟩
    · rw [hrender]
      simp only [List.map_cons, List.map_nil]
      exact List.pairwise_singleton _ _
    · rw [hrender]
      simp only [List.map_cons, List.map_nil, List.sum_cons, List.sum_nil]
      show area (effectiveBorder _) + 0 = 1
      simp [effectiveBorder, area]
  · have hrender : render basepath w h m mode b0 =
        (List.range (piecesCount w m)).flatMap (fun row =>
          (List.range (piecesCount h m)).map (fun column =>
            renderTile basepath w h m mode b0 row column)) := by
      simp only [render]
      rw [if_neg hsingle]
    refine ⟨⟨?_, ?_, ?_⟩, hAdj⟩
    · -- coverage of the unit square
      intro x y hx0 hx1 hy0 hy1
      obtain ⟨r, hr, hxl, hxr⟩ := boundary_cover (xBound w m mode) (piecesCount w m)
        hpx1 hFxm x (by rw [hFx0]; exact hx0) (by rw [hFxn]; exact hx1)
      obtain ⟨c, hc, hyl, hyr⟩ := boundary_cover (xBound h m mode) (piecesCount h m)
        hpy1 hFym y (by rw [hFy0]; exact hy0) (by rw [hFyn]; exact hy1)
      refine ⟨tileBorder w h m mode b0 r c, ?_, ?_⟩
      · rw [hrender, List.mem_map]
        refine ⟨renderTile basepath w h m mode b0 r c, ?_, rfl⟩
        rw [List.mem_flatMap]
        exact ⟨r, List.mem_range.mpr hr, List.mem_map.mpr ⟨c, List.mem_range.mpr hc, rfl⟩⟩
      · rw [tileBorder_eq hm mode hmode b0 hr hc]
        exact ⟨hxl, hxr, hyl, hyr⟩
    · -- pairwise disjoint interiors
      rw [hrender, List.map_flatMap]
      apply pairwise_flatMap_range
      · intro r hr
        rw [List.map_map, List.pairwise_map]
        refine (List.pairwise_lt_range (piecesCount h m)).imp_of_mem ?_
        intro c cc hcmem hccmem hlt
        rw [List.mem_range] at hcmem hccmem
        intro x y hxy
        have h1 : inOpen (tileBorder w h m mode b0 r c) x y := hxy.1
        have h2 : inOpen (tileBorder w h m mode b0 r cc) x y := hxy.2
        rw [tileBorder_eq hm mode hmode b0 hr hcmem] at h1
        rw [tileBorder_eq hm mode hmode b0 hr hccmem] at h2
        exact boundary_disjoint (xBound h m mode) (piecesCount h m) hFym hlt hccmem
          h1.2.2.2 h2.2.2.1
      · intro i j hij hj a ha b hb
        rw [List.map_map, List.mem_map] at ha hb
        obtain ⟨c, hcmem, rfl⟩ := ha
        obtain ⟨cc, hccmem, rfl⟩ := hb
        rw [List.mem_range] at hcmem hccmem
        intro x y hxy
        have h1 : inOpen (tileBorder w h m mode b0 i c) x y := hxy.1
        have h2 : inOpen (tileBorder w h m mode b0 j cc) x y := hxy.2
        rw [tileBorder_eq hm mode hmode b0 (show i < piecesCount w m by omega) hcmem] at h1
        rw [tileBorder_eq hm mode hmode b0 hj hccmem] at h2
        exact boundary_disjoint (xBound w m mode) (piecesCount w m) hFxm hij hj
          h1.2.1 h2.1
    · -- areas sum to 1
      rw [hrender, List.map_map]
      refine ((sum_map_map_flatMap (area ∘ effectiveBorder)
        (fun r c => renderTile basepath w h m mode b0 r c)
        (piecesCount w m) (piecesCount h m)).trans ?_)
      show (∑ r ∈ Finset.range (piecesCount w m), ∑ c ∈ Finset.range (piecesCount h m),
        (area ∘ effectiveBorder) (renderTile basepath w h m mode b0 r c)) = 1
      have hsum1 : ∀ r ∈ Finset.range (piecesCount w m),
          (∑ c ∈ Finset.range (piecesCount h m),
            (area ∘ effectiveBorder) (renderTile basepath w h m mode b0 r c))
          = xBound w m mode (r + 1) - xBound w m mode r := by
        intro r hr
        have hrpx := Finset.mem_range.mp hr
        have hc2 : ∀ c ∈ Finset.range (piecesCount h m),
            (area ∘ effectiveBorder) (renderTile basepath w h m mode b0 r c)
              = (xBound w m mode (r + 1) - xBound w m mode r) *
                (xBound h m mode (c + 1) - xBound h m mode c) := by
          intro c hcr
          have hcpy := Finset.mem_range.mp hcr
          show area (effectiveBorder (renderTile basepath w h m mode b0 r c)) = _
          rw [heff, tileBorder_eq hm mode hmode b0 hrpx hcpy]
          rfl
        rw [Finset.sum_congr rfl hc2, ← Finset.mul_sum, htele_y, mul_one]
      rw [Finset.sum_congr rfl hsum1, htele_x]

/-- C1 witness: the partition property at a concrete tiled render, a 5x3
target split with cap 2 under EvenSplit. -/
theorem C1_tiling_partition_witness :
    ((1 : Nat) ≤ 5 ∧ (1 : Nat) ≤ 3 ∧ (1 : Nat) ≤ 2 ∧
      (DivideMode.evensize = DivideMode.evensize ∨
        DivideMode.evensize = DivideMode.maxsize)) ∧
    (tilesPartitionUnitSquare (render ("p") 5 3 2 DivideMode.evensize unitBorder) ∧
      adjacentBoundariesMatch ("p") 5 3 2 DivideMode.evensize unitBorder) :=
  ⟨⟨by norm_num, by norm_num, by norm_num, Or.inl rfl⟩,
   C1_tiling_partition ("p") 5 3 2 DivideMode.evensize unitBorder
     (by norm_num) (by norm_num) (by norm_num) (Or.inl rfl)⟩

end OrthoBatch
